import Mathlib

/-!
Shallow embedding of the Frelancia job-notifier core: the filter engine,
seen-set bookkeeping, scrape cycle, detail-page merge, quiet hours and the
reconnection policy, translated from the extension background script
(`checkForNewJobs`, `applyFilters`, `parseBudgetValue`, `parseHiringRate`,
`parseDurationDays`, `calculateClientAgeDays`, `isQuietHour`,
`fetchProjectDetails`), the server `JobScraperService.CheckForNewJobsAsync`,
and `signalr-client.js`.  JavaScript numbers are modelled as rationals
(the values involved are exact decimals), fallible fetches as `Option`,
and ambient time as an explicit environment value.
-/

namespace Frelancia

/-- Longest leading run of decimal digits of a character list, paired with
the remaining characters (the `\d+` part of the budget regexes). -/
def takeDigits : List Char → List Char × List Char
  | [] => ([], [])
  | c :: cs =>
    if c.isDigit then
      let p := takeDigits cs
      (c :: p.1, p.2)
    else ([], c :: cs)

theorem takeDigits_length (cs : List Char) :
    (takeDigits cs).1.length + (takeDigits cs).2.length = cs.length := by
  induction cs with
  | nil => simp [takeDigits]
  | cons c cs ih =>
    by_cases h : c.isDigit
    · simp [takeDigits, h]; omega
    · simp [takeDigits, h]

/-- Numeric value of a digit run, as `parseInt`/`parseFloat` read it. -/
def digitsVal (ds : List Char) : Nat :=
  ds.foldl (fun a c => 10 * a + (c.toNat - 48)) 0

/-- One step of the global scan for the regex `\d+(\.\d+)?`: each match is
kept as its integer digits paired with its (possibly absent) fraction
digits.  `fuel` bounds the recursion; the callers pass the length of the
input, which always suffices since every round consumes at least one
character. -/
def scanTokensF : Nat → List Char → List (List Char × List Char)
  | 0, _ => []
  | _, [] => []
  | fuel + 1, c :: cs =>
    if c.isDigit then
      let intDs := (takeDigits (c :: cs)).1
      let rest := (takeDigits (c :: cs)).2
      match rest with
      | '.' :: d :: r2 =>
        if d.isDigit then
          (intDs, (takeDigits (d :: r2)).1) :: scanTokensF fuel (takeDigits (d :: r2)).2
        else (intDs, ([] : List Char)) :: scanTokensF fuel rest
      | r => (intDs, ([] : List Char)) :: scanTokensF fuel r
    else scanTokensF fuel cs

/-- All matches of `\d+(\.\d+)?` in a character list. -/
def scanTokens (cs : List Char) : List (List Char × List Char) :=
  scanTokensF cs.length cs

/-- `parseFloat` on one match: the integer digits, plus the decimal
fraction when the match carried one. -/
def tokenVal (t : List Char × List Char) : ℚ :=
  if t.2.isEmpty then (digitsVal t.1 : ℚ)
  else (digitsVal t.1 : ℚ) + (digitsVal t.2 : ℚ) / 10 ^ t.2.length

/-- All matches of `\d+(\.\d+)?` in a character list, as their
`parseFloat` values. -/
def scanNums (cs : List Char) : List ℚ := (scanTokens cs).map tokenVal

/-- Binary `Math.max` on (exactly represented) JavaScript numbers. -/
def jsMax (a b : ℚ) : ℚ := if a ≤ b then b else a

/-- `Math.max` over a list of values (`0` when the list is empty, a case
the callers below never reach without checking emptiness first). -/
def maxList : List ℚ → ℚ
  | [] => 0
  | x :: xs => xs.foldl jsMax x

/-- Does the haystack start with the needle? -/
def listStartsWith : List Char → List Char → Bool
  | [], _ => true
  | _ :: _, [] => false
  | n :: ns, h :: hs => n == h && listStartsWith ns hs

/-- Substring containment over character lists (JavaScript
`String.prototype.includes`): some suffix of the haystack starts with the
needle; an empty needle is always contained. -/
def containsSub (needle : List Char) : List Char → Bool
  | [] => listStartsWith needle []
  | h :: hs => listStartsWith needle (h :: hs) || containsSub needle hs

/-- `hay.includes(sub)` on strings. -/
def jsIncludes (hay sub : String) : Bool := containsSub sub.data hay.data

/-- `String.prototype.toLowerCase` (character-wise lowering; the keyword
filters in the source operate on ASCII keywords and Arabic text, both of
which this maps exactly as JavaScript does). -/
def toLowerStr (s : String) : String := s.map Char.toLower

/-- `parseBudgetValue(budgetText)` from the background script: strip
thousands-separator commas, collect every match of `\d+(\.\d+)?`, and
return the maximum value found, or `0` when there is no match. -/
def parseBudgetValue (s : String) : ℚ :=
  let cs := s.data.filter (fun c => c ≠ ',')
  match scanNums cs with
  | [] => 0
  | v :: vs => maxList (v :: vs)

/-- `parseHiringRate(rateText)`: empty input and the Arabic
"not yet calculated" marker (detected by the substring `بعد`) map to `0`;
otherwise the first numeric match after comma-stripping is parsed. -/
def parseHiringRate (s : String) : ℚ :=
  if s = "" then 0
  else if jsIncludes s "بعد" then 0
  else
    match scanNums (s.data.filter (fun c => c ≠ ',')) with
    | [] => 0
    | v :: _ => v

/-- First `\d+` match anywhere in a character list, if any. -/
def firstNatToken : List Char → Option (List Char)
  | [] => none
  | c :: cs => if c.isDigit then some (takeDigits (c :: cs)).1 else firstNatToken cs

/-- `parseDurationDays(durationText)`: first integer match; otherwise the
literal "one day" (`يوم واحد`) maps to 1; otherwise 0. -/
def parseDurationDays (s : String) : Nat :=
  match firstNatToken s.data with
  | some ds => digitsVal ds
  | none => if jsIncludes s "يوم واحد" then 1 else 0

/-- Leading integer of a character list (`parseInt` on digit-leading
input), `none` when the input does not start with a digit (`NaN`). -/
def leadNat : List Char → Option Nat
  | [] => none
  | c :: cs => if c.isDigit then some (digitsVal (takeDigits (c :: cs)).1) else none

/-- JavaScript `parseInt` on one split part, restricted to the shapes
the scraper feeds it: an optional sign followed by digits, junk after
the digits ignored; `none` models `NaN`. -/
def jsParseInt : List Char → Option Int
  | '-' :: rest => (leadNat rest).map (fun n => -(n : Int))
  | '+' :: rest => (leadNat rest).map (fun n => (n : Int))
  | cs => (leadNat cs).map (fun n => (n : Int))

/-- JavaScript `String.prototype.split` with a single-character
separator: splits at every occurrence, keeping empty pieces, and yields
one (empty) piece for the empty string. -/
def splitOnChar (sep : Char) : List Char → List (List Char)
  | [] => [[]]
  | c :: cs =>
    if c = sep then [] :: splitOnChar sep cs
    else
      match splitOnChar sep cs with
      | [] => [[c]]
      | w :: ws => (c :: w) :: ws

/-- The `arabicMonths` lookup table of `calculateClientAgeDays`. -/
def arabicMonthIndex (m : List Char) : Option Nat :=
  if m = "يناير".data then some 0
  else if m = "فبراير".data then some 1
  else if m = "مارس".data then some 2
  else if m = "أبريل".data then some 3
  else if m = "مايو".data then some 4
  else if m = "يونيو".data then some 5
  else if m = "يوليو".data then some 6
  else if m = "أغسطس".data then some 7
  else if m = "سبتمبر".data then some 8
  else if m = "أكتوبر".data then some 9
  else if m = "نوفمبر".data then some 10
  else if m = "ديسمبر".data then some 11
  else none

/-- Date-string parsing of `calculateClientAgeDays`: split on spaces,
require at least three parts, parse day, Arabic month name and year;
`none` models the `-1` early returns on malformed input. -/
def parseRegDate (s : String) : Option (Int × Nat × Int) :=
  match splitOnChar ' ' s.data with
  | d :: m :: y :: _ =>
    match jsParseInt d, arabicMonthIndex m, jsParseInt y with
    | some dv, some mv, some yv => some (dv, mv, yv)
    | _, _, _ => none
  | _ => none

/-- Milliseconds per day, the divisor `1000 * 60 * 60 * 24`. -/
def msPerDay : Nat := 1000 * 60 * 60 * 24

/-- The ambient JavaScript environment the background script reads:
`new Date()` as epoch milliseconds and as a local time of day, and the
`new Date(year, month, day)` constructor as an abstract conversion from a
calendar date to epoch milliseconds. -/
structure JsEnv where
  nowMs : Int
  dateToMs : Int → Nat → Int → Int
  nowH : Nat
  nowM : Nat

/-- `calculateClientAgeDays(dateText)`: `-1` on unparseable input,
otherwise `Math.ceil(Math.abs(now - regDate) / msPerDay)`. -/
def calculateClientAgeDays (env : JsEnv) (s : String) : Int :=
  match parseRegDate s with
  | none => -1
  | some (d, m, y) =>
    let reg := env.dateToMs y m d
    let diff : Nat := (env.nowMs - reg).natAbs
    ((diff + (msPerDay - 1)) / msPerDay : Nat)

/-- A job listing as the extension holds it (`job` objects); the empty
string stands for a missing/undefined field, matching how the source
tests fields for truthiness. -/
structure Job where
  id : String
  title : String
  budget : String
  url : String
  description : String
  hiringRate : String
  status : String
  communications : String
  duration : String
  registrationDate : String
deriving DecidableEq

/-- Detail-page enrichment fields (`parseProjectDetails` result /
`JobDetails` on the server). -/
structure ProjectDetails where
  description : String
  hiringRate : String
  status : String
  communications : String
  duration : String
  registrationDate : String
  budget : String
deriving DecidableEq

/-- The user settings fields consumed by `applyFilters` and the
quiet-hours check; numeric criteria are `0` when disabled, keyword lists
are the empty string when disabled. -/
structure Settings where
  minBudget : ℚ
  minHiringRate : ℚ
  keywordsInclude : String
  keywordsExclude : String
  maxDuration : ℚ
  minClientAge : ℚ
  quietHoursEnabled : Bool
  quietHoursStart : String
  quietHoursEnd : String

/-- Budget block of `applyFilters`: active when a positive minimum is
configured and the listing carries a budget string; rejects when the
parsed maximum is positive yet below the minimum. -/
def budgetRule (minBudget : ℚ) (budget : String) : Bool :=
  if 0 < minBudget ∧ budget ≠ "" then
    let v := parseBudgetValue budget
    if 0 < v ∧ v < minBudget then false else true
  else true

/-- Hiring-rate block of `applyFilters`: active when a positive minimum
is configured and the listing carries a hiring-rate string; rejects when
the parsed rate is below the minimum. -/
def hiringRateRule (minRate : ℚ) (hr : String) : Bool :=
  if 0 < minRate ∧ hr ≠ "" then
    if parseHiringRate hr < minRate then false else true
  else true

/-- The comma-separated, trimmed, lowercased keyword list of the keyword
blocks of `applyFilters`. -/
def keywordList (kw : String) : List String :=
  ((toLowerStr kw).splitOn ",").map (fun k => k.trim)

/-- The lowercased `title + ' ' + (description || '')` text the keyword
blocks search. -/
def jobContent (title descr : String) : String :=
  toLowerStr (title ++ " " ++ descr)

/-- Include-keywords block of `applyFilters`: active when the configured
list is non-blank; rejects when no keyword occurs in the job content. -/
def includeKeywordsRule (kw : String) (title descr : String) : Bool :=
  if kw ≠ "" ∧ kw.trim ≠ "" then
    (keywordList kw).any (fun k => jsIncludes (jobContent title descr) k)
  else true

/-- Exclude-keywords block of `applyFilters`: active when the configured
list is non-blank; rejects when some keyword occurs in the job content. -/
def excludeKeywordsRule (kw : String) (title descr : String) : Bool :=
  if kw ≠ "" ∧ kw.trim ≠ "" then
    !((keywordList kw).any (fun k => jsIncludes (jobContent title descr) k))
  else true

/-- Duration block of `applyFilters`: active when a positive maximum is
configured and the listing carries a duration string; rejects when the
parsed day-count is positive and exceeds the maximum. -/
def durationRule (maxDuration : ℚ) (dur : String) : Bool :=
  if 0 < maxDuration ∧ dur ≠ "" then
    let days := parseDurationDays dur
    if 0 < days ∧ maxDuration < (days : ℚ) then false else true
  else true

/-- Client-age block of `applyFilters`: active when a positive minimum is
configured and the listing carries a registration-date string; rejects
when the computed age is non-negative (parseable) and below the minimum. -/
def clientAgeRule (env : JsEnv) (minClientAge : ℚ) (reg : String) : Bool :=
  if 0 < minClientAge ∧ reg ≠ "" then
    let age := calculateClientAgeDays env reg
    if 0 ≤ age ∧ (age : ℚ) < minClientAge then false else true
  else true

/-- `applyFilters(job, settings)`: the conjunction of the six rule
blocks, each guarded by its own criterion (the source returns `false` at
the first failing block, which is exactly this conjunction). -/
def applyFilters (env : JsEnv) (job : Job) (s : Settings) : Bool :=
  budgetRule s.minBudget job.budget &&
  hiringRateRule s.minHiringRate job.hiringRate &&
  includeKeywordsRule s.keywordsInclude job.title job.description &&
  excludeKeywordsRule s.keywordsExclude job.title job.description &&
  durationRule s.maxDuration job.duration &&
  clientAgeRule env s.minClientAge job.registrationDate

/-- Core of `isQuietHour(settings)` (identical in the background script
and `signalr-client.js`), on already-split clock components: minutes
since midnight for start, end and now; the branch on
`startMinutes < endMinutes` selects the same-day interval test, the
other branch the midnight-wrapping test. -/
def isQuietHour (startH startM endH endM nowH nowM : Nat) : Bool :=
  let currentMinutes := nowH * 60 + nowM
  let startMinutes := startH * 60 + startM
  let endMinutes := endH * 60 + endM
  if startMinutes < endMinutes then
    decide (startMinutes ≤ currentMinutes ∧ currentMinutes ≤ endMinutes)
  else
    decide (startMinutes ≤ currentMinutes ∨ currentMinutes ≤ endMinutes)

/-- JavaScript `Number` on one clock piece of an `"HH:MM"` string:
digits parse to their value; `none` models `NaN` on other content (the
source only ever feeds well-formed pieces). -/
def jsNumberNat (cs : List Char) : Option Nat :=
  if cs ≠ [] ∧ cs.all Char.isDigit then some (digitsVal cs) else none

/-- Clock component read from one piece of an `"HH:MM"` string
(`split(':').map(Number)` on the well-formed settings strings). -/
def clockPart (parts : List (List Char)) (i : Nat) : Nat :=
  ((parts.get? i).bind jsNumberNat).getD 0

/-- `isQuietHour(settings)` including the empty-string guard and the
`"HH:MM"` parsing of the source. -/
def isQuietHourSettings (env : JsEnv) (s : Settings) : Bool :=
  if s.quietHoursStart = "" ∨ s.quietHoursEnd = "" then false
  else
    let sp := splitOnChar ':' s.quietHoursStart.data
    let ep := splitOnChar ':' s.quietHoursEnd.data
    isQuietHour (clockPart sp 0) (clockPart sp 1) (clockPart ep 0) (clockPart ep 1)
      env.nowH env.nowM

/-- The seen-set capacity (`500` in both the extension and the server). -/
def seenCap : Nat := 500

/-- Last `n` entries of a list, in order (`slice(-n)` for over-long
lists). -/
def lastN {α : Type} (n : Nat) (l : List α) : List α := l.drop (l.length - n)

/-- One `Add` on the seen set as the source realises it: push the id if
not already present (the guarded `seenJobs.push`), then truncate to the
most recent `seenCap` entries (`seenJobs.slice(-500)`). -/
def addSeen {α : Type} [DecidableEq α] (seen : List α) (x : α) : List α :=
  let s := if x ∈ seen then seen else seen ++ [x]
  if seenCap < s.length then s.drop (s.length - seenCap) else s

/-- The seen set after a sequence of `Add` operations from empty. -/
def seenFold {α : Type} [DecidableEq α] (l : List α) : List α :=
  l.foldl addSeen []

/-- `Contains` on the seen set (`seenJobs.includes(id)`). -/
def seenContains {α : Type} [DecidableEq α] (seen : List α) (x : α) : Bool :=
  decide (x ∈ seen)

/-- Detail-merge of the extension (`checkForNewJobs`): the six detail
fields are written unconditionally; the budget is replaced only when the
list-page budget is empty and the detail page supplies one. -/
def enrichJob (job : Job) (d : ProjectDetails) : Job :=
  { job with
    description := d.description
    hiringRate := d.hiringRate
    status := d.status
    communications := d.communications
    duration := d.duration
    registrationDate := d.registrationDate
    budget := if job.budget = "" ∧ d.budget ≠ "" then d.budget else job.budget }

/-- Detail-merge of the server (`JobScraperService.CheckForNewJobsAsync`):
the six detail fields are written unconditionally; the budget is replaced
when the list-page budget is empty or equals the unknown marker. -/
def mergeDetailsServer (job : Job) (d : ProjectDetails) : Job :=
  { job with
    description := d.description
    hiringRate := d.hiringRate
    status := d.status
    communications := d.communications
    duration := d.duration
    registrationDate := d.registrationDate
    budget := if job.budget = "" ∨ job.budget = "غير محدد" then d.budget else job.budget }

/-- One iteration of the deep-check loop of `checkForNewJobs` for a
single job: when `fetchProjectDetails` fails (`none`, covering network
errors, HTTP errors, parse failures and the 3-second timeout) the job is
kept with its list-page fields only; when it succeeds the job is
enriched and kept exactly when it passes the second `applyFilters`. -/
def deepStep (env : JsEnv) (s : Settings) (fetch : Job → Option ProjectDetails)
    (job : Job) : Option Job :=
  match fetch job with
  | none => some job
  | some d =>
    let j := enrichJob job d
    if applyFilters env j s then some j else none

/-- The whole deep-check loop: the surviving `qualityJobs`, in order. -/
def deepPhase (env : JsEnv) (s : Settings) (fetch : Job → Option ProjectDetails)
    (jobs : List Job) : List Job :=
  jobs.filterMap (deepStep env s fetch)

/-- One category iteration of `checkForNewJobs`: keep the jobs that are
unseen and pass the cheap `applyFilters`, append them to the collected
new jobs, and push their ids onto the seen list (guarded, in order). -/
def cheapCategory (env : JsEnv) (s : Settings)
    (st : List String × List Job) (jobs : List Job) : List String × List Job :=
  let newJobs := jobs.filter (fun j => !(seenContains st.1 j.id) && applyFilters env j s)
  let seen := newJobs.foldl (fun acc j => if seenContains acc j.id then acc else acc ++ [j.id]) st.1
  (seen, st.2 ++ newJobs)

/-- The once-per-cycle truncation `seenJobs = seenJobs.slice(-500)`. -/
def truncateSeen (l : List String) : List String :=
  if seenCap < l.length then l.drop (l.length - seenCap) else l

/-- Observable outcome of one scrape cycle: the stored seen list, the
batch handed to notification dispatch (empty when nothing is shown), and
the count of suppressed listings under quiet hours. -/
structure CycleResult where
  seen : List String
  dispatched : List Job
  suppressed : Nat
deriving DecidableEq

/-- `checkForNewJobs()` as a function of its inputs: the enabled
categories' fetched job lists, the stored seen list, the settings and the
detail-fetch oracle.  Mirrors the source order: cheap filter and seen-id
recording per category, the 500-cap truncation and storage write, then —
only for a non-empty batch — the quiet-hours gate and the deep-check loop
feeding notification dispatch. -/
def checkForNewJobs (env : JsEnv) (s : Settings) (seen0 : List String)
    (categories : List (List Job)) (fetch : Job → Option ProjectDetails) : CycleResult :=
  let st := categories.foldl (cheapCategory env s) (seen0, [])
  let allNewJobs := st.2
  let seen := truncateSeen st.1
  if allNewJobs.isEmpty then
    { seen := seen, dispatched := [], suppressed := 0 }
  else if s.quietHoursEnabled && isQuietHourSettings env s then
    { seen := seen, dispatched := [], suppressed := allNewJobs.length }
  else
    { seen := seen, dispatched := deepPhase env s fetch allNewJobs, suppressed := 0 }

/-- The `nextRetryDelayInMilliseconds` callback of
`SignalRClient.connect`, with the nullable return type the SignalR API
gives it: `none` (null) would end automatic reconnection, a value
schedules the next attempt after that delay.  The source callback
returns a number on both paths — exponential backoff `1000 * 2^n`
capped at 60000 ms while the elapsed reconnect time is under a minute,
then a flat 60000 ms. -/
def nextRetryDelayMs (previousRetryCount elapsedMilliseconds : Nat) : Option Nat :=
  if elapsedMilliseconds < 60000 then some (min (1000 * 2 ^ previousRetryCount) 60000)
  else some 60000

/-- `maxReconnectAttempts` of `SignalRClient`. -/
def maxReconnectAttempts : Nat := 10

/-- `reconnectDelay` of `SignalRClient` (milliseconds). -/
def reconnectDelayMs : Nat := 5000

/-- `SignalRClient.scheduleReconnect` (run when `connect()` itself
fails) on the attempt counter: `none` when the maximum is reached (no
further attempt is scheduled), otherwise the incremented counter
together with the `setTimeout` delay of the scheduled attempt — always
the fixed `reconnectDelay` of 5000 ms. -/
def scheduleReconnect (reconnectAttempts : Nat) : Option (Nat × Nat) :=
  if maxReconnectAttempts ≤ reconnectAttempts then none
  else some (reconnectAttempts + 1, reconnectDelayMs)

theorem tokenVal_nonneg (t : List Char × List Char) : 0 ≤ tokenVal t := by
  rw [tokenVal]
  split
  · positivity
  · positivity

theorem scanNums_nonneg (cs : List Char) : ∀ x ∈ scanNums cs, 0 ≤ x := by
  intro x hx
  rcases List.mem_map.mp hx with ⟨t, _, ht⟩
  rw [← ht]
  exact tokenVal_nonneg t

theorem le_jsMax_left (a b : ℚ) : a ≤ jsMax a b := by
  rw [jsMax]
  split
  · assumption
  · exact le_refl a

theorem le_foldl_max (a : ℚ) (xs : List ℚ) : a ≤ xs.foldl jsMax a := by
  induction xs generalizing a with
  | nil => simp
  | cons x xs ih =>
    calc a ≤ jsMax a x := le_jsMax_left a x
    _ ≤ xs.foldl jsMax (jsMax a x) := ih (jsMax a x)
    _ = (x :: xs).foldl jsMax a := by simp [List.foldl]

theorem maxList_nonneg (l : List ℚ) (h : ∀ x ∈ l, 0 ≤ x) : 0 ≤ maxList l := by
  match l with
  | [] => simp [maxList]
  | x :: xs =>
    have hx : 0 ≤ x := h x (List.mem_cons_self x xs)
    calc (0 : ℚ) ≤ x := hx
    _ ≤ xs.foldl jsMax x := le_foldl_max x xs
    _ = maxList (x :: xs) := rfl

theorem parseBudgetValue_nonneg (s : String) : 0 ≤ parseBudgetValue s := by
  rw [parseBudgetValue]
  split
  · exact le_refl 0
  · rename_i v vs hvs
    refine maxList_nonneg (v :: vs) ?_
    intro x hx
    exact scanNums_nonneg _ x (by rw [hvs]; exact hx)

theorem parseBudgetValue_range_example :
    parseBudgetValue "$500.00 - $1,000.00" = 1000 := by
  have htok : scanTokens ((String.data "$500.00 - $1,000.00").filter (fun c => c ≠ ',')) =
      [(['5', '0', '0'], ['0', '0']), (['1', '0', '0', '0'], ['0', '0'])] := by decide
  have hv1 : tokenVal (['5', '0', '0'], ['0', '0']) = 500 := by
    have h1 : digitsVal ['5', '0', '0'] = 500 := by decide
    have h2 : digitsVal ['0', '0'] = 0 := by decide
    rw [tokenVal]
    norm_num [h1, h2]
  have hv2 : tokenVal (['1', '0', '0', '0'], ['0', '0']) = 1000 := by
    have h1 : digitsVal ['1', '0', '0', '0'] = 1000 := by decide
    have h2 : digitsVal ['0', '0'] = 0 := by decide
    rw [tokenVal]
    norm_num [h1, h2]
  have hs : scanNums ((String.data "$500.00 - $1,000.00").filter (fun c => c ≠ ',')) =
      [(500 : ℚ), 1000] := by
    rw [scanNums, htok]
    simp [hv1, hv2]
  simp only [parseBudgetValue, hs]
  norm_num [maxList, jsMax]

/-- Claim C3: the budget filter takes the maximum of all comma-stripped
numeric substrings and, for a configured positive minimum, rejects a
listing exactly when that maximum is nonzero and below the minimum;
`"$500.00 - $1,000.00"` parses to `1000`, and a budget string with no
parseable number (`"غير محدد"`) passes the budget rule. -/
theorem budget_filter_characterisation (minB : ℚ) (hmin : 0 < minB) :
    (∀ s : String, (budgetRule minB s = false ↔
        (parseBudgetValue s ≠ 0 ∧ parseBudgetValue s < minB))) ∧
    parseBudgetValue "$500.00 - $1,000.00" = 1000 ∧
    budgetRule minB "غير محدد" = true := by
  refine ⟨?_, parseBudgetValue_range_example, ?_⟩
  · intro s
    have hnn := parseBudgetValue_nonneg s
    simp only [budgetRule]
    by_cases hs : s = ""
    · subst hs
      have hv : parseBudgetValue "" = 0 := by decide
      simp [hv]
    · rw [if_pos ⟨hmin, hs⟩]
      by_cases hc : 0 < parseBudgetValue s ∧ parseBudgetValue s < minB
      · rw [if_pos hc]
        exact iff_of_true rfl ⟨ne_of_gt hc.1, hc.2⟩
      · rw [if_neg hc]
        exact iff_of_false (by simp)
          (fun h => hc ⟨lt_of_le_of_ne hnn (Ne.symm h.1), h.2⟩)
  · have hv : parseBudgetValue "غير محدد" = 0 := by decide
    simp only [budgetRule, hv]
    rw [if_pos ⟨hmin, by decide⟩]
    rw [if_neg (by simp)]

theorem budget_filter_characterisation_witness :
    (budgetRule 50 "$500.00 - $1,000.00" = false ↔
      (parseBudgetValue "$500.00 - $1,000.00" ≠ 0 ∧
        parseBudgetValue "$500.00 - $1,000.00" < 50)) ∧
    budgetRule 50 "غير محدد" = true :=
  ⟨(budget_filter_characterisation 50 (by norm_num)).1 _,
   (budget_filter_characterisation 50 (by norm_num)).2.2⟩

/-- Claim C8: the special "not yet calculated" hiring-rate marker parses
to `0`, a listing carrying it fails the hiring-rate rule for every
configured positive minimum, and an ordinary rate string parses to its
leading numeric value. -/
theorem hiring_rate_marker_rejected (minR : ℚ) (hmin : 0 < minR) :
    parseHiringRate "لم يحسب بعد" = 0 ∧
    hiringRateRule minR "لم يحسب بعد" = false ∧
    parseHiringRate "46.67%" = 4667 / 100 := by
  have hm : parseHiringRate "لم يحسب بعد" = 0 := by decide
  refine ⟨hm, ?_, ?_⟩
  · simp only [hiringRateRule]
    rw [if_pos ⟨hmin, by decide⟩, hm, if_pos hmin]
  · have htok : scanTokens ((String.data "46.67%").filter (fun c => c ≠ ',')) =
        [(['4', '6'], ['6', '7'])] := by decide
    have hv : tokenVal (['4', '6'], ['6', '7']) = 4667 / 100 := by
      have h1 : digitsVal ['4', '6'] = 46 := by decide
      have h2 : digitsVal ['6', '7'] = 67 := by decide
      rw [tokenVal]
      norm_num [h1, h2]
    have hs : scanNums ((String.data "46.67%").filter (fun c => c ≠ ',')) =
        [(4667 : ℚ) / 100] := by
      rw [scanNums, htok]
      simp [hv]
    simp only [parseHiringRate]
    rw [if_neg (by decide), if_neg (by decide), hs]

theorem hiring_rate_marker_rejected_witness :
    parseHiringRate "لم يحسب بعد" = 0 ∧
    hiringRateRule 50 "لم يحسب بعد" = false ∧
    parseHiringRate "46.67%" = 4667 / 100 :=
  hiring_rate_marker_rejected 50 (by norm_num)

/-- Claim C5: for a non-wrapping window (start before end, in minutes
since midnight) now is inside exactly when `start ≤ now ≤ end`; for a
window wrapping past midnight (end before start) exactly when
`now ≥ start` or `now ≤ end`; concretely with the window 23:00–07:00 the
checks at 23:30 and 06:30 are inside and the check at 12:00 is not. -/
theorem quiet_hours_window_semantics :
    (∀ sH sM eH eM nH nM : Nat,
      (sH * 60 + sM < eH * 60 + eM →
        (isQuietHour sH sM eH eM nH nM = true ↔
          (sH * 60 + sM ≤ nH * 60 + nM ∧ nH * 60 + nM ≤ eH * 60 + eM))) ∧
      (eH * 60 + eM < sH * 60 + sM →
        (isQuietHour sH sM eH eM nH nM = true ↔
          (sH * 60 + sM ≤ nH * 60 + nM ∨ nH * 60 + nM ≤ eH * 60 + eM)))) ∧
    isQuietHour 23 0 7 0 23 30 = true ∧
    isQuietHour 23 0 7 0 6 30 = true ∧
    isQuietHour 23 0 7 0 12 0 = false := by
  refine ⟨?_, by decide, by decide, by decide⟩
  intro sH sM eH eM nH nM
  constructor
  · intro hlt
    simp only [isQuietHour]
    rw [if_pos hlt]
    simp
  · intro hgt
    simp only [isQuietHour]
    rw [if_neg (by omega)]
    simp

theorem quiet_hours_window_semantics_witness :
    (9 * 60 + 0 < 17 * 60 + 0) ∧
    (isQuietHour 9 0 17 0 12 0 = true ↔
      (9 * 60 + 0 ≤ 12 * 60 + 0 ∧ 12 * 60 + 0 ≤ 17 * 60 + 0)) :=
  ⟨by decide, (quiet_hours_window_semantics.1 9 0 17 0 12 0).1 (by decide)⟩

/-- Claim C9 counterexample: the two reconnection mechanisms each lack
one of the claimed properties.  The automatic-reconnect delay callback —
the only mechanism driving retries after an unexpected disconnect — still
returns a delay (never null) at the fixed maximum attempt count of 10
and far beyond it (here at attempt 1000 with over an hour elapsed), so
those retries never stop at a bounded attempt count; and
`scheduleReconnect`, the mechanism that is bounded, schedules
consecutive attempts at the same fixed 5000 ms delay rather than
doubling it. -/
theorem reconnect_policy_counterexample :
    nextRetryDelayMs maxReconnectAttempts 30000 = some 60000 ∧
    nextRetryDelayMs (maxReconnectAttempts + 990) 3600000 = some 60000 ∧
    scheduleReconnect 3 = some (4, 5000) ∧
    scheduleReconnect 4 = some (5, 5000) := by
  refine ⟨?_, ?_, ?_, ?_⟩
  · decide
  · decide
  · decide
  · decide

/-- Claim C9 (amended): on unexpected disconnect the client retries via
the automatic-reconnect delay callback with exponential backoff —
starting at one second, doubling per attempt while below the 60-second
ceiling, never exceeding the ceiling and flat at the ceiling once a
minute has elapsed — but the callback never signals stop, so those
retries are not bounded by an attempt count; separately, initial-connect
failures are retried by `scheduleReconnect` at the fixed 5000 ms delay
up to the maximum of `maxReconnectAttempts` (10) attempts, after which
no further attempt is scheduled without external intervention. -/
theorem reconnect_backoff_and_cap :
    (∀ n e : Nat, nextRetryDelayMs n e ≠ none) ∧
    (∀ n e d : Nat, nextRetryDelayMs n e = some d → d ≤ 60000) ∧
    (∀ e : Nat, e < 60000 → nextRetryDelayMs 0 e = some 1000) ∧
    (∀ n e d : Nat, e < 60000 → 1000 * 2 ^ (n + 1) ≤ 60000 →
      nextRetryDelayMs n e = some d → nextRetryDelayMs (n + 1) e = some (2 * d)) ∧
    (∀ n e : Nat, 60000 ≤ e → nextRetryDelayMs n e = some 60000) ∧
    (∀ a : Nat, maxReconnectAttempts ≤ a → scheduleReconnect a = none) ∧
    (∀ a : Nat, a < maxReconnectAttempts →
      scheduleReconnect a = some (a + 1, reconnectDelayMs)) := by
  refine ⟨?_, ?_, ?_, ?_, ?_, ?_, ?_⟩
  · intro n e
    rw [nextRetryDelayMs]
    split
    · exact Option.some_ne_none _
    · exact Option.some_ne_none _
  · intro n e d hd
    rw [nextRetryDelayMs] at hd
    split at hd
    · rw [Option.some.injEq] at hd
      rw [← hd]
      exact min_le_right _ _
    · rw [Option.some.injEq] at hd
      omega
  · intro e he
    rw [nextRetryDelayMs, if_pos he]
    decide
  · intro n e d he hcap hd
    have hn : 1000 * 2 ^ n ≤ 60000 := by
      calc 1000 * 2 ^ n ≤ 1000 * 2 ^ (n + 1) :=
        Nat.mul_le_mul_left 1000 (Nat.pow_le_pow_right (by norm_num) (Nat.le_succ n))
      _ ≤ 60000 := hcap
    rw [nextRetryDelayMs, if_pos he, min_eq_left hn, Option.some.injEq] at hd
    rw [nextRetryDelayMs, if_pos he, min_eq_left hcap, Option.some.injEq, ← hd, pow_succ]
    ring
  · intro n e he
    rw [nextRetryDelayMs, if_neg (by omega)]
  · intro a ha
    rw [scheduleReconnect, if_pos ha]
  · intro a ha
    rw [scheduleReconnect, if_neg (by omega)]

theorem reconnect_backoff_and_cap_witness :
    (500 < 60000 ∧ 1000 * 2 ^ (1 + 1) ≤ 60000 ∧ nextRetryDelayMs 1 500 = some 2000) ∧
    nextRetryDelayMs (1 + 1) 500 = some (2 * 2000) ∧
    scheduleReconnect 10 = none ∧
    scheduleReconnect 0 = some (1, reconnectDelayMs) :=
  ⟨⟨by decide, by decide, by decide⟩,
   reconnect_backoff_and_cap.2.2.2.1 1 500 2000 (by decide) (by decide) (by decide),
   reconnect_backoff_and_cap.2.2.2.2.2.1 10 (by decide),
   reconnect_backoff_and_cap.2.2.2.2.2.2 0 (by decide)⟩

/-- A fixed environment for concrete scenarios. -/
def env0 : JsEnv := { nowMs := 0, dateToMs := fun _ _ _ => 0, nowH := 12, nowM := 0 }

/-- Settings enabling only the minimum-hiring-rate criterion (50%). -/
def settings0 : Settings :=
  { minBudget := 0, minHiringRate := 50, keywordsInclude := "", keywordsExclude := "",
    maxDuration := 0, minClientAge := 0, quietHoursEnabled := false,
    quietHoursStart := "", quietHoursEnd := "" }

/-- A listing with list-page fields only. -/
def job0 : Job :=
  { id := "1001", title := "t", budget := "", url := "u", description := "",
    hiringRate := "", status := "", communications := "", duration := "",
    registrationDate := "" }

/-- Detail fields whose hiring rate (10%) is below the 50% minimum of
`settings0`. -/
def details0 : ProjectDetails :=
  { description := "d", hiringRate := "10", status := "", communications := "",
    duration := "", registrationDate := "", budget := "" }

/-- Claim C4: a failed detail fetch (`none`) for one listing leaves that
listing in the deep-phase output unchanged, with its list-page fields,
and every other listing of the batch is processed exactly as it would be
on its own — the cycle is never aborted by a single detail failure. -/
theorem detail_fetch_failure_isolated (env : JsEnv) (s : Settings)
    (fetch : Job → Option ProjectDetails) (xs ys : List Job) (j : Job)
    (hfail : fetch j = none) :
    deepPhase env s fetch (xs ++ j :: ys) =
      deepPhase env s fetch xs ++ j :: deepPhase env s fetch ys := by
  simp only [deepPhase, List.filterMap_append, List.filterMap_cons, deepStep, hfail]

theorem detail_fetch_failure_isolated_witness :
    deepPhase env0 settings0 (fun _ => none) ([] ++ job0 :: []) =
      deepPhase env0 settings0 (fun _ => none) [] ++
        job0 :: deepPhase env0 settings0 (fun _ => none) [] :=
  detail_fetch_failure_isolated env0 settings0 (fun _ => none) [] [] job0 rfl

/-- A listing whose list-page budget is the unknown marker. -/
def jobMarker : Job :=
  { id := "2", title := "t", budget := "غير محدد", url := "u", description := "",
    hiringRate := "", status := "", communications := "", duration := "",
    registrationDate := "" }

/-- A listing whose list-page budget is an ordinary non-empty value. -/
def jobPriced : Job :=
  { id := "3", title := "t", budget := "$200.00", url := "u", description := "",
    hiringRate := "", status := "", communications := "", duration := "",
    registrationDate := "" }

/-- Detail fields carrying a budget. -/
def detailsBudget : ProjectDetails :=
  { description := "", hiringRate := "", status := "", communications := "",
    duration := "", registrationDate := "", budget := "$100.00" }

/-- Claim C7 counterexample: on the server merge, a listing whose
list-page budget is the non-empty marker `"غير محدد"` has its budget
replaced by the detail-page budget, contradicting the claim that every
non-empty list-page budget is unchanged by the merge. -/
theorem merge_marker_budget_replaced :
    jobMarker.budget ≠ "" ∧
    (mergeDetailsServer jobMarker detailsBudget).budget ≠ jobMarker.budget ∧
    (mergeDetailsServer jobMarker detailsBudget).budget = "$100.00" := by
  decide

/-- Claim C7 (amended): the extension merge keeps any non-empty
list-page budget; the server merge keeps a budget that is non-empty and
not the unknown marker `"غير محدد"`, and replaces the marker by the
detail budget; in both merges the six detail fields are always updated
and the identity fields (id, title, url) are untouched. -/
theorem merge_detail_fields (job : Job) (d : ProjectDetails) :
    (job.budget ≠ "" → (enrichJob job d).budget = job.budget) ∧
    (job.budget ≠ "" ∧ job.budget ≠ "غير محدد" →
      (mergeDetailsServer job d).budget = job.budget) ∧
    (job.budget = "غير محدد" → (mergeDetailsServer job d).budget = d.budget) ∧
    (enrichJob job d).description = d.description ∧
    (enrichJob job d).hiringRate = d.hiringRate ∧
    (enrichJob job d).status = d.status ∧
    (enrichJob job d).communications = d.communications ∧
    (enrichJob job d).duration = d.duration ∧
    (enrichJob job d).registrationDate = d.registrationDate ∧
    (enrichJob job d).id = job.id ∧
    (enrichJob job d).title = job.title ∧
    (enrichJob job d).url = job.url ∧
    (mergeDetailsServer job d).description = d.description ∧
    (mergeDetailsServer job d).hiringRate = d.hiringRate ∧
    (mergeDetailsServer job d).status = d.status ∧
    (mergeDetailsServer job d).communications = d.communications ∧
    (mergeDetailsServer job d).duration = d.duration ∧
    (mergeDetailsServer job d).registrationDate = d.registrationDate ∧
    (mergeDetailsServer job d).id = job.id ∧
    (mergeDetailsServer job d).title = job.title ∧
    (mergeDetailsServer job d).url = job.url := by
  refine ⟨?_, ?_, ?_, rfl, rfl, rfl, rfl, rfl, rfl, rfl, rfl, rfl,
    rfl, rfl, rfl, rfl, rfl, rfl, rfl, rfl, rfl⟩
  · intro h
    simp [enrichJob, h]
  · intro h
    simp [mergeDetailsServer, h.1, h.2]
  · intro h
    simp [mergeDetailsServer, h]

theorem merge_detail_fields_witness :
    jobPriced.budget ≠ "" ∧ jobPriced.budget ≠ "غير محدد" ∧
    (enrichJob jobPriced detailsBudget).budget = jobPriced.budget ∧
    (mergeDetailsServer jobPriced detailsBudget).budget = jobPriced.budget :=
  ⟨by decide, by decide,
   (merge_detail_fields jobPriced detailsBudget).1 (by decide),
   (merge_detail_fields jobPriced detailsBudget).2.1 ⟨by decide, by decide⟩⟩

theorem addSeen_length_le {α : Type} [DecidableEq α] (seen : List α) (x : α)
    (h : seen.length ≤ seenCap) : (addSeen seen x).length ≤ seenCap := by
  simp only [seenCap] at h ⊢
  simp only [addSeen, seenCap]
  split <;> split
  all_goals
    simp_all only [List.length_drop, List.length_append, List.length_cons, List.length_nil]
  all_goals omega

theorem foldl_addSeen_length_le {α : Type} [DecidableEq α] (l : List α) :
    ∀ acc : List α, acc.length ≤ seenCap → (l.foldl addSeen acc).length ≤ seenCap := by
  induction l with
  | nil => intro acc h; simpa using h
  | cons y l ih => intro acc h; exact ih _ (addSeen_length_le acc y h)

theorem addSeen_lastN {α : Type} [DecidableEq α] (pre : List α) (x : α) (hx : x ∉ pre) :
    addSeen (lastN seenCap pre) x = lastN seenCap (pre ++ [x]) := by
  have hx' : x ∉ List.drop (pre.length - seenCap) pre :=
    fun h => hx (List.drop_subset _ _ h)
  simp only [addSeen, lastN, if_neg hx']
  by_cases hn : pre.length < seenCap
  · rw [if_neg]
    · rw [Nat.sub_eq_zero_of_le (le_of_lt hn), List.drop_zero]
      rw [Nat.sub_eq_zero_of_le (by
        simp only [seenCap, List.length_append, List.length_cons, List.length_nil]
        simp only [seenCap] at hn
        omega), List.drop_zero]
    · simp only [seenCap, List.length_append, List.length_drop, List.length_cons,
        List.length_nil]
      simp only [seenCap] at hn
      omega
  · push_neg at hn
    simp only [seenCap] at hn
    rw [if_pos (by
      simp only [seenCap, List.length_append, List.length_drop, List.length_cons,
        List.length_nil]
      omega)]
    have hlen : (List.drop (pre.length - seenCap) pre ++ [x]).length - seenCap = 1 := by
      simp only [seenCap, List.length_append, List.length_drop, List.length_cons,
        List.length_nil]
      omega
    rw [hlen, List.drop_append_eq_append_drop, List.drop_drop,
      List.drop_append_eq_append_drop]
    have e1 : pre.length - seenCap + 1 = (pre ++ [x]).length - seenCap := by
      simp only [seenCap, List.length_append, List.length_cons, List.length_nil]
      omega
    have e2 : 1 - (List.drop (pre.length - seenCap) pre).length = 0 := by
      simp only [seenCap, List.length_drop]
      omega
    have e3 : (pre ++ [x]).length - seenCap - pre.length = 0 := by
      simp only [seenCap, List.length_append, List.length_cons, List.length_nil]
      omega
    simp only [e1, e2, e3, List.drop_zero]

theorem foldl_addSeen_lastN {α : Type} [DecidableEq α] (l : List α) :
    ∀ pre : List α, (pre ++ l).Nodup →
      l.foldl addSeen (lastN seenCap pre) = lastN seenCap (pre ++ l) := by
  induction l with
  | nil => intro pre _; simp
  | cons y l ih =>
    intro pre h
    have hassoc : pre ++ y :: l = (pre ++ [y]) ++ l := by simp
    have hy : y ∉ pre := by
      rcases List.nodup_append.mp h with ⟨_, _, hdisj⟩
      exact fun hc => hdisj hc (List.mem_cons_self y l)
    calc (y :: l).foldl addSeen (lastN seenCap pre)
        = l.foldl addSeen (addSeen (lastN seenCap pre) y) := List.foldl_cons _ _
      _ = l.foldl addSeen (lastN seenCap (pre ++ [y])) := by rw [addSeen_lastN pre y hy]
      _ = lastN seenCap ((pre ++ [y]) ++ l) := ih (pre ++ [y]) (by rw [← hassoc]; exact h)
      _ = lastN seenCap (pre ++ y :: l) := by rw [← hassoc]

theorem seenFold_eq_lastN {α : Type} [DecidableEq α] (l : List α) (h : l.Nodup) :
    seenFold l = lastN seenCap l := by
  have hnil : (([] : List α) ++ l).Nodup := by rw [List.nil_append]; exact h
  have hmain := foldl_addSeen_lastN l [] hnil
  have h0 : lastN seenCap ([] : List α) = [] := by
    simp [lastN]
  rw [h0, List.nil_append] at hmain
  exact hmain

/-- Claim C2: for any sequence of `Add` operations the seen set never
holds more than `seenCap` (= 500) entries, and after inserting more than
`seenCap` distinct ids the retained window is exactly the most recent
`seenCap` insertions in order — `Contains` is true exactly on that window
and false exactly on the evicted oldest entries. -/
theorem seen_set_cap_and_eviction {α : Type} [DecidableEq α]
    (l m : List α) (hm : m.Nodup) :
    (seenFold l).length ≤ seenCap ∧
    seenFold m = lastN seenCap m ∧
    (∀ x ∈ m, (seenContains (seenFold m) x = true ↔ x ∈ lastN seenCap m) ∧
      (seenContains (seenFold m) x = false ↔
        x ∈ m.take (m.length - seenCap))) := by
  have hcap0 : (([] : List α)).length ≤ seenCap := by simp
  refine ⟨foldl_addSeen_length_le l [] hcap0, seenFold_eq_lastN m hm, ?_⟩
  intro x hx
  have heq := seenFold_eq_lastN m hm
  have hsplit := List.take_append_drop (m.length - seenCap) m
  have hnd : (m.take (m.length - seenCap) ++ m.drop (m.length - seenCap)).Nodup := by
    rw [hsplit]; exact hm
  rcases List.nodup_append.mp hnd with ⟨_, _, hdisj⟩
  have hmem : x ∈ m.take (m.length - seenCap) ∨ x ∈ m.drop (m.length - seenCap) := by
    rw [← List.mem_append, hsplit]; exact hx
  constructor
  · rw [heq]
    simp [seenContains, lastN]
  · rw [heq]
    simp only [seenContains, lastN, decide_eq_false_iff_not]
    constructor
    · intro hnot
      rcases hmem with h1 | h1
      · exact h1
      · exact absurd h1 hnot
    · intro htake hdrop
      exact hdisj htake hdrop

theorem seen_set_cap_and_eviction_witness :
    (List.range 502).Nodup ∧
    ((seenFold (List.range 502)).length ≤ seenCap ∧
     seenFold (List.range 502) = lastN seenCap (List.range 502) ∧
     (∀ x ∈ List.range 502,
       (seenContains (seenFold (List.range 502)) x = true ↔
         x ∈ lastN seenCap (List.range 502)) ∧
       (seenContains (seenFold (List.range 502)) x = false ↔
         x ∈ (List.range 502).take ((List.range 502).length - seenCap)))) :=
  ⟨List.nodup_range 502,
   seen_set_cap_and_eviction (List.range 502) (List.range 502) (List.nodup_range 502)⟩

theorem budgetRule_zero (b : String) : budgetRule 0 b = true := by
  simp [budgetRule]

theorem hiringRateRule_zero (hr : String) : hiringRateRule 0 hr = true := by
  simp [hiringRateRule]

theorem includeKeywordsRule_empty (t d : String) :
    includeKeywordsRule "" t d = true := by
  simp [includeKeywordsRule]

theorem excludeKeywordsRule_empty (t d : String) :
    excludeKeywordsRule "" t d = true := by
  simp [excludeKeywordsRule]

theorem durationRule_zero (dur : String) : durationRule 0 dur = true := by
  simp [durationRule]

theorem clientAgeRule_zero (env : JsEnv) (reg : String) :
    clientAgeRule env 0 reg = true := by
  simp [clientAgeRule]

/-- One criteria snapshot arises from another by enabling exactly one
previously disabled (zero or empty) filter criterion. -/
inductive EnablesOne : Settings → Settings → Prop where
  | budget : ∀ (s : Settings) (v : ℚ), s.minBudget = 0 →
      EnablesOne s { s with minBudget := v }
  | hiringRate : ∀ (s : Settings) (v : ℚ), s.minHiringRate = 0 →
      EnablesOne s { s with minHiringRate := v }
  | includeKw : ∀ (s : Settings) (v : String), s.keywordsInclude = "" →
      EnablesOne s { s with keywordsInclude := v }
  | excludeKw : ∀ (s : Settings) (v : String), s.keywordsExclude = "" →
      EnablesOne s { s with keywordsExclude := v }
  | duration : ∀ (s : Settings) (v : ℚ), s.maxDuration = 0 →
      EnablesOne s { s with maxDuration := v }
  | clientAge : ∀ (s : Settings) (v : ℚ), s.minClientAge = 0 →
      EnablesOne s { s with minClientAge := v }

/-- Claim C6: filter evaluation is monotone in the criteria — starting
from any snapshot under which a listing fails `applyFilters`, enabling
one additional criterion (changing a single disabled zero/empty field to
any value, captured by `EnablesOne`) still yields failure. -/
theorem filters_monotone (env : JsEnv) (job : Job) (s sNew : Settings)
    (hen : EnablesOne s sNew) (hfail : applyFilters env job s = false) :
    applyFilters env job sNew = false := by
  cases hen with
  | budget v h =>
    simp only [applyFilters] at hfail ⊢
    rw [h, budgetRule_zero] at hfail
    simp only [Bool.true_and] at hfail
    simp only [Bool.and_eq_false_iff] at hfail ⊢
    tauto
  | hiringRate v h =>
    simp only [applyFilters] at hfail ⊢
    rw [h, hiringRateRule_zero] at hfail
    simp only [Bool.true_and, Bool.and_true] at hfail
    simp only [Bool.and_eq_false_iff] at hfail ⊢
    tauto
  | includeKw v h =>
    simp only [applyFilters] at hfail ⊢
    rw [h, includeKeywordsRule_empty] at hfail
    simp only [Bool.true_and, Bool.and_true] at hfail
    simp only [Bool.and_eq_false_iff] at hfail ⊢
    tauto
  | excludeKw v h =>
    simp only [applyFilters] at hfail ⊢
    rw [h, excludeKeywordsRule_empty] at hfail
    simp only [Bool.true_and, Bool.and_true] at hfail
    simp only [Bool.and_eq_false_iff] at hfail ⊢
    tauto
  | duration v h =>
    simp only [applyFilters] at hfail ⊢
    rw [h, durationRule_zero] at hfail
    simp only [Bool.true_and, Bool.and_true] at hfail
    simp only [Bool.and_eq_false_iff] at hfail ⊢
    tauto
  | clientAge v h =>
    simp only [applyFilters] at hfail ⊢
    rw [h, clientAgeRule_zero] at hfail
    simp only [Bool.true_and, Bool.and_true] at hfail
    simp only [Bool.and_eq_false_iff] at hfail ⊢
    tauto

/-- Settings enabling only the minimum-budget criterion (50). -/
def settingsBudget : Settings :=
  { minBudget := 50, minHiringRate := 0, keywordsInclude := "", keywordsExclude := "",
    maxDuration := 0, minClientAge := 0, quietHoursEnabled := false,
    quietHoursStart := "", quietHoursEnd := "" }

/-- A listing whose budget (10) is below the 50 minimum of
`settingsBudget`. -/
def jobCheap : Job :=
  { id := "4", title := "t", budget := "$10", url := "u", description := "",
    hiringRate := "", status := "", communications := "", duration := "",
    registrationDate := "" }

theorem filters_monotone_witness :
    settingsBudget.minHiringRate = 0 ∧
    applyFilters env0 jobCheap settingsBudget = false ∧
    applyFilters env0 jobCheap { settingsBudget with minHiringRate := 30 } = false :=
  ⟨rfl, by decide,
   filters_monotone env0 jobCheap settingsBudget _
     (EnablesOne.hiringRate settingsBudget 30 rfl) (by decide)⟩

theorem checkForNewJobs_seen (env : JsEnv) (s : Settings) (seen0 : List String)
    (categories : List (List Job)) (fetch : Job → Option ProjectDetails) :
    (checkForNewJobs env s seen0 categories fetch).seen =
      truncateSeen (categories.foldl (cheapCategory env s) (seen0, [])).1 := by
  simp only [checkForNewJobs]
  split
  · rfl
  · split
    · rfl
    · rfl

/-- Claim C1 (amended): within one cycle, listing ids are recorded into
the seen set right after the cheap pass and before enrichment and the
deep pass — the stored seen list is determined by the cheap pass alone,
independent of the detail-fetch results and the deep filter, so ids of
listings later dropped by the deep filter remain recorded. -/
theorem seen_recorded_before_deep_pass (env : JsEnv) (s : Settings)
    (seen0 : List String) (categories : List (List Job))
    (fetch fetch' : Job → Option ProjectDetails) :
    (checkForNewJobs env s seen0 categories fetch).seen =
      (checkForNewJobs env s seen0 categories fetch').seen ∧
    (checkForNewJobs env s seen0 categories fetch).seen =
      truncateSeen (categories.foldl (cheapCategory env s) (seen0, [])).1 := by
  constructor
  · rw [checkForNewJobs_seen, checkForNewJobs_seen]
  · exact checkForNewJobs_seen env s seen0 categories fetch

/-- Claim C1 counterexample: with only the 50% minimum-hiring-rate
criterion enabled, a listing that passes the cheap pass but is dropped
by the deep filter (its detail page reports a 10% rate) still has its id
in the seen set stored by the cycle while nothing is dispatched —
refuting the claim that no id of a deep-dropped listing is ever present
in the seen set. -/
theorem seen_contains_deep_dropped_id :
    (checkForNewJobs env0 settings0 [] [[job0]] (fun _ => some details0)).seen
      = [job0.id] ∧
    (checkForNewJobs env0 settings0 [] [[job0]] (fun _ => some details0)).dispatched
      = [] := by
  constructor
  · decide
  · decide

/-- Claim C10: for every parseable registration date the computed client
age is the absolute now-to-date distance in milliseconds, divided by a
day and rounded up; a strictly future date therefore yields a positive
age, and the listing passes the minimum-client-age rule whenever that
absolute distance is at least the configured minimum number of days. -/
theorem client_age_absolute_ceil (env : JsEnv) (s : String) (d : Int) (m : Nat) (y : Int)
    (hp : parseRegDate s = some (d, m, y)) :
    calculateClientAgeDays env s =
      (((env.nowMs - env.dateToMs y m d).natAbs + (msPerDay - 1)) / msPerDay : Nat) ∧
    (env.nowMs < env.dateToMs y m d → 0 < calculateClientAgeDays env s) ∧
    (∀ minA : ℚ, minA * (msPerDay : ℚ) ≤ ((env.nowMs - env.dateToMs y m d).natAbs : ℚ) →
      clientAgeRule env minA s = true) := by
  have hca : calculateClientAgeDays env s =
      (((env.nowMs - env.dateToMs y m d).natAbs + (msPerDay - 1)) / msPerDay : Nat) := by
    simp only [calculateClientAgeDays, hp]
  refine ⟨hca, ?_, ?_⟩
  · intro hfut
    rw [hca]
    have hpos : 0 < (env.nowMs - env.dateToMs y m d).natAbs := by
      rw [Int.natAbs_pos]
      omega
    have hdiv : 1 ≤ ((env.nowMs - env.dateToMs y m d).natAbs + (msPerDay - 1)) / msPerDay := by
      rw [Nat.le_div_iff_mul_le (by norm_num [msPerDay])]
      simp only [msPerDay] at *
      omega
    exact_mod_cast hdiv
  · intro minA hmin
    have hnat : (env.nowMs - env.dateToMs y m d).natAbs ≤
        (((env.nowMs - env.dateToMs y m d).natAbs + (msPerDay - 1)) / msPerDay) * msPerDay := by
      have h := Nat.div_add_mod ((env.nowMs - env.dateToMs y m d).natAbs + (msPerDay - 1)) msPerDay
      have h2 : ((env.nowMs - env.dateToMs y m d).natAbs + (msPerDay - 1)) % msPerDay < msPerDay :=
        Nat.mod_lt _ (by norm_num [msPerDay])
      simp only [msPerDay] at *
      omega
    have hkey : ((env.nowMs - env.dateToMs y m d).natAbs : ℚ) ≤
        ((((env.nowMs - env.dateToMs y m d).natAbs + (msPerDay - 1)) / msPerDay : Nat) : ℚ) *
          (msPerDay : ℚ) := by
      exact_mod_cast hnat
    have hc : (0 : ℚ) < (msPerDay : ℚ) := by norm_num [msPerDay]
    have hage : minA ≤
        ((((env.nowMs - env.dateToMs y m d).natAbs + (msPerDay - 1)) / msPerDay : Nat) : ℚ) := by
      rw [← mul_le_mul_right hc]
      calc minA * (msPerDay : ℚ)
          ≤ ((env.nowMs - env.dateToMs y m d).natAbs : ℚ) := hmin
        _ ≤ _ := hkey
    simp only [clientAgeRule, hca]
    split
    · rw [if_neg]
      push_neg
      intro _
      rw [Int.cast_natCast]
      exact hage
    · rfl

/-- An environment in which every parsed registration date lies exactly
one day in the future of `nowMs`. -/
def envFuture : JsEnv :=
  { nowMs := 0, dateToMs := fun _ _ _ => (msPerDay : Int), nowH := 0, nowM := 0 }

theorem client_age_absolute_ceil_witness :
    parseRegDate "14 فبراير 2026" = some (14, 1, 2026) ∧
    (calculateClientAgeDays envFuture "14 فبراير 2026" =
      (((envFuture.nowMs - envFuture.dateToMs 2026 1 14).natAbs + (msPerDay - 1)) /
        msPerDay : Nat) ∧
     (envFuture.nowMs < envFuture.dateToMs 2026 1 14 →
       0 < calculateClientAgeDays envFuture "14 فبراير 2026") ∧
     (∀ minA : ℚ,
       minA * (msPerDay : ℚ) ≤
         ((envFuture.nowMs - envFuture.dateToMs 2026 1 14).natAbs : ℚ) →
       clientAgeRule envFuture minA "14 فبراير 2026" = true)) :=
  ⟨by decide, client_age_absolute_ceil envFuture "14 فبراير 2026" 14 1 2026 (by decide)⟩

end Frelancia
